import Mathlib

/-!
Verification of the das/elvish parser (`src/parse/parse.go`) against its
natural-language specification.

The parser is embedded shallowly: the token stream produced by the external
lexer is a `List Item`, the mutable `Parser` struct becomes an explicit
`PState` threaded through every production, and the panic/recover error
discipline becomes an `Except` value.  Recursive-descent productions are
defined with an explicit fuel parameter (structural recursion on `Nat`) so
that every definition is executable and kernel-reducible.
-/

namespace Elvish

/-- Token kinds, as referenced by `parse.go` (`ItemBare`, `ItemSpace`, …).
The lexer itself is outside the verified core; the parser only consumes
tokens of these kinds. -/
inductive ItemType where
  | bare
  | singleQuoted
  | doubleQuoted
  | pipe
  | caret
  | dollar
  | lParen
  | rParen
  | lBracket
  | rBracket
  | redirLeader
  | space
  | endOfLine
  | eof
deriving DecidableEq, Repr

/-- Modelled from the spec: the flag bit on a token marking it as lexically
incomplete ("continuable"); `parse.go` tests `token.End & MayContinue != 0`.
The numeric value of the bit is irrelevant to the parser. -/
def MayContinue : Nat := 1

/-- A lexer token: kind, byte offset, raw text, and the end-flag bits
(`Item.Typ`, `Item.Pos`, `Item.Val`, `Item.End` in the source). -/
structure Item where
  typ : ItemType
  pos : Nat
  val : String
  itemEnd : Nat
deriving DecidableEq, Repr

/-- Modelled from the spec: the continuation-context hint value (§6); the
source constructs it as `NewArgContext(text)`, defined outside `src/`, and
the spec describes it only as a value derived from the final lexical token. -/
structure ArgContext where
  text : String
deriving DecidableEq, Repr

def NewArgContext (s : String) : ArgContext := ⟨s⟩

/-- Parser state: the remaining token stream (pushback folded away, since the
three-slot buffer only ever replays tokens just returned) plus the `Ctx`
continuation hint field of the `Parser` struct. -/
structure PState where
  input : List Item
  ctx : Option ArgContext
deriving DecidableEq, Repr

/-- The end-of-input token the lexer reports on exhaustion (spec §6: the
token source must report an end-of-input token rather than erroring). -/
def eofItem : Item := ⟨.eof, 0, "", 0⟩

/-- `p.peek()`: return the next token without consuming it. -/
def peekTok (s : PState) : Item := s.input.headD eofItem

/-- `p.next()`: consume and return the next token. -/
def nextTok (s : PState) : Item × PState :=
  match s.input with
  | [] => (eofItem, s)
  | t :: ts => (t, { s with input := ts })

def dropSpacesList : List Item → List Item
  | [] => []
  | t :: ts => if t.typ = .space then dropSpacesList ts else t :: ts

/-- The state after the whitespace-skipping done by `nextNonSpace` /
`peekNonSpace` (space tokens are consumed permanently; the first non-space
token is left at the head). -/
def skipSpaces (s : PState) : PState := { s with input := dropSpacesList s.input }

/-- A grammar violation raised by `errorf`: offending byte offset and the
formatted message.  (`p.Name` and `p.text` are constant during a parse and
are attached at the single top-level catch site, see `Parse`.) -/
structure Violation where
  pos : Nat
  msg : String
deriving DecidableEq, Repr

/-- How a production can fail to return: an actual grammar violation
(`errorf` panic in the source) or exhaustion of the embedding's fuel. -/
inductive PFail where
  | err : Violation → PFail
  | fuel : PFail
deriving DecidableEq, Repr

/-- Result of one production: failure, or a value plus the successor state. -/
abbrev PR (α : Type) := Except PFail (α × PState)

mutual
/-- AST nodes (`ListNode`, `CommandNode`, `FactorNode`, `StringNode`,
`TableNode`).  Modelled from the spec (§3) for the field layout — the node
type definitions live outside `src/` — exactly as used by `parse.go`:
`list pos children`; `command termList redirs` (the `CommandNode` embeds the
term-list `ListNode`, so its position is the embedded list's); `factor pos
dollar child`; `str pos raw decoded`; `table pos listPart dictPart`. -/
inductive Node where
  | list : Nat → List Node → Node
  | command : Node → List Redir → Node
  | factor : Nat → Nat → Node → Node
  | str : Nat → String → String → Node
  | table : Nat → List Node → List (Node × Node) → Node

/-- Redirections: `FilenameRedir fd flag target`, `FdRedir fd oldFd`,
`CloseRedir fd` (spec §3; constructed by `redir`). -/
inductive Redir where
  | filename : Nat → Nat → Node → Redir
  | fdRedir : Nat → Nat → Redir
  | close : Nat → Redir
end

/-- `startsFactor`: whether a token of this type can start a Factor. -/
def startsFactor : ItemType → Bool
  | .bare => true
  | .singleQuoted => true
  | .doubleQuoted => true
  | .lParen => true
  | .lBracket => true
  | .dollar => true
  | _ => false

/-- Model of Go `strings.IndexRune`: index of the first occurrence. -/
def indexRune (c : Char) : List Char → Option Nat
  | [] => none
  | x :: xs => if x = c then some 0 else (indexRune c xs).map (· + 1)

/-- Model of Go `strings.Replace(s, dd, d, -1)` for the doubled-delimiter
pattern: left-to-right, non-overlapping replacement of two consecutive
occurrences of `d` by one. -/
def replaceDoubled (d : Char) : List Char → List Char
  | [] => []
  | [c] => [c]
  | c1 :: c2 :: rest =>
    if c1 = d ∧ c2 = d then d :: replaceDoubled d rest
    else c1 :: replaceDoubled d (c2 :: rest)

/-- Modelled from the spec: decoding of one escape character of a
double-quoted literal (conventional backslash escapes, §4.2); the source
delegates to the Go standard library `strconv.Unquote`, external to this
repository. -/
def escChar : Char → Option Char
  | 'n' => some '\n'
  | 't' => some '\t'
  | 'r' => some '\r'
  | '\\' => some '\\'
  | '"' => some '"'
  | '\'' => some '\''
  | _ => none

/-- Modelled from the spec: body of double-quoted decoding (§4.2); malformed
escapes fail. -/
def dqUnesc : List Char → Option (List Char)
  | [] => some []
  | '\\' :: [] => none
  | '\\' :: c :: rest =>
    match escChar c with
    | none => none
    | some e => (dqUnesc rest).map (e :: ·)
  | '"' :: _ => none
  | c :: rest => (dqUnesc rest).map (c :: ·)

/-- Modelled from the spec: Go's `strconv.Unquote` restricted to
double-quoted literals (external standard-library code): strip the outer
`"` pair and decode backslash escapes, failing on malformed input. -/
def strconvUnquote (v : String) : Except String String :=
  match v.data with
  | '"' :: rest =>
    if rest = [] then .error "invalid syntax"
    else if rest.getLast? = some '"' then
      match dqUnesc rest.dropLast with
      | some cs => .ok cs.asString
      | none => .error "invalid syntax"
    else .error "invalid syntax"
  | _ => .error "invalid syntax"

/-- Rendering of an item inside error messages.  Modelled from the spec
(diagnostics carry a "formatted message"); the source's `Item.String` is
defined outside `src/`. -/
def itemString (t : Item) : String :=
  match t.typ with
  | .eof => "EOF"
  | _ => t.val

/-- The `errorf(..., "unexpected %s in %s", token, context)` message. -/
def unexpectedMsg (t : Item) (context : String) : String :=
  "unexpected " ++ itemString t ++ " in " ++ context

/-- `unquote`: decode a bare / single-quoted / double-quoted token into its
semantic text.  Single-quoted strips `Val[1:len-1]` and replaces every
doubled backquote delimiter by a single one. -/
def unquote (token : Item) : Except String String :=
  match token.typ with
  | .bare => .ok token.val
  | .singleQuoted =>
    .ok (replaceDoubled '`' ((token.val.data.drop 1).dropLast)).asString
  | .doubleQuoted => strconvUnquote token.val
  | t => .error ("Bad token type (" ++ itemString ⟨t, 0, "", 0⟩ ++ ")")

/-- Modelled from the spec: the unsigned-integer parser consumed for fd
numbers in redirection qualifiers (§6) — decimal text to unsigned integer,
failing on empty or non-digit text.  The source's `Atou` is defined outside
`src/`. -/
def Atou (cs : List Char) : Option Nat :=
  if cs ≠ [] ∧ cs.all Char.isDigit then
    some (cs.foldl (fun n c => 10 * n + (c.toNat - '0'.toNat)) 0)
  else none

/-- Go `os` package open-mode flag (Linux value). -/
def O_RDONLY : Nat := 0

/-- Go `os` package open-mode flag (Linux value). -/
def O_WRONLY : Nat := 1

/-- Go `os` package open-mode flag (Linux value). -/
def O_RDWR : Nat := 2

/-- Go `os` package open-mode flag (Linux value). -/
def O_CREATE : Nat := 64

/-- Go `os` package open-mode flag (Linux value). -/
def O_APPEND : Nat := 1024

/-- Partition a redirection leader's text into direction and qualifier:
split at the first `[`; the qualifier is the text from there to the last
character exclusive (`leader.Val[i+1 : len(leader.Val)-1]`). -/
def splitLeader (cs : List Char) : List Char × List Char :=
  match indexRune '[' cs with
  | some i => (cs.take i, (cs.drop (i + 1)).dropLast)
  | none => (cs, [])

/-- The direction switch of `redir`: map direction text to
(open-mode flag, default fd); unrecognized directions have no mapping. -/
def dirFlagFd (dir : List Char) : Option (Nat × Nat) :=
  if dir = "<".data then some (O_RDONLY, 0)
  else if dir = "<>".data then some (O_RDWR ||| O_CREATE, 0)
  else if dir = ">".data then some (O_WRONLY ||| O_CREATE, 1)
  else if dir = ">>".data then some (O_WRONLY ||| O_CREATE ||| O_APPEND, 1)
  else none

/-- The `%q` rendering used in redirection error messages. -/
def goQuote (s : String) : String := "\"" ++ s ++ "\""

/-- The dollar-counting loop at the head of `factor`
(`for p.peek().Typ == ItemDollar { p.next(); fn.Dollar++ }`). -/
def countDollarsList : List Item → Nat × List Item
  | [] => (0, [])
  | t :: ts =>
    if t.typ = .dollar then
      let (n, r) := countDollarsList ts
      (n + 1, r)
    else (0, t :: ts)

def countDollars (s : PState) : Nat × PState :=
  let (n, r) := countDollarsList s.input
  (n, { s with input := r })

/-- The bundle of mutually recursive productions of the recursive-descent
parser, at one fuel level.  Bundling them in a structure lets the whole
parser be defined by plain structural recursion on the fuel (`parsers`),
so every production is executable by kernel reduction. -/
structure Parsers where
  pipeline : PState → PR Node
  pipelineLoop : PState → PR (List Node)
  command : PState → PR Node
  commandLoop : PState → PR (List Redir)
  termList : PState → PR Node
  termListLoop : PState → PR (List Node)
  term : PState → PR Node
  termLoop : PState → PR (List Node)
  factor : PState → PR Node
  table : PState → PR Node
  tableLoop : PState → PR (List Node × List (Node × Node))
  redir : PState → PR Redir

/-- All productions out of fuel. -/
def failParsers : Parsers where
  pipeline := fun _ => .error .fuel
  pipelineLoop := fun _ => .error .fuel
  command := fun _ => .error .fuel
  commandLoop := fun _ => .error .fuel
  termList := fun _ => .error .fuel
  termListLoop := fun _ => .error .fuel
  term := fun _ => .error .fuel
  termLoop := fun _ => .error .fuel
  factor := fun _ => .error .fuel
  table := fun _ => .error .fuel
  tableLoop := fun _ => .error .fuel
  redir := fun _ => .error .fuel

/-- One fuel level of every production, each a direct transcription of the
corresponding function in `parse.go` (see the per-production doc comments
on the wrappers below). -/
def stepParsers (prev : Parsers) : Parsers where
  pipeline := fun s =>
    let pos := (peekTok s).pos
    let s := skipSpaces s
    if (peekTok s).typ = .eof then
      .ok (.list pos [], s)
    else
      match prev.pipelineLoop s with
      | .error e => .error e
      | .ok (cmds, s) => .ok (.list pos cmds, s)
  pipelineLoop := fun s =>
    match prev.command s with
    | .error e => .error e
    | .ok (cmd, s) =>
      let (tok, s) := nextTok s
      if tok.typ = .pipe then
        match prev.pipelineLoop s with
        | .error e => .error e
        | .ok (cmds, s) => .ok (cmd :: cmds, s)
      else if tok.typ = .endOfLine ∨ tok.typ = .eof then
        .ok ([cmd], s)
      else
        .error (.err ⟨tok.pos, unexpectedMsg tok "end of pipeline"⟩)
  command := fun s =>
    match prev.termList s with
    | .error e => .error e
    | .ok (tl, s) =>
      match prev.commandLoop s with
      | .error e => .error e
      | .ok (redirs, s) => .ok (.command tl redirs, s)
  commandLoop := fun s =>
    let s := skipSpaces s
    if (peekTok s).typ = .redirLeader then
      match prev.redir s with
      | .error e => .error e
      | .ok (r, s) =>
        match prev.commandLoop s with
        | .error e => .error e
        | .ok (rs, s) => .ok (r :: rs, s)
    else
      .ok ([], s)
  termList := fun s =>
    let pos := (peekTok s).pos
    match prev.term s with
    | .error e => .error e
    | .ok (t, s) =>
      match prev.termListLoop s with
      | .error e => .error e
      | .ok (ts, s) => .ok (.list pos (t :: ts), s)
  termListLoop := fun s =>
    let s := skipSpaces s
    if startsFactor (peekTok s).typ then
      match prev.term s with
      | .error e => .error e
      | .ok (t, s) =>
        match prev.termListLoop s with
        | .error e => .error e
        | .ok (ts, s) => .ok (t :: ts, s)
    else
      .ok ([], s)
  term := fun s =>
    let pos := (peekTok s).pos
    match prev.factor s with
    | .error e => .error e
    | .ok (f, s) =>
      match prev.termLoop s with
      | .error e => .error e
      | .ok (fs, s) => .ok (.list pos (f :: fs), s)
  termLoop := fun s =>
    if startsFactor (peekTok s).typ then
      match prev.factor s with
      | .error e => .error e
      | .ok (f, s) =>
        match prev.termLoop s with
        | .error e => .error e
        | .ok (fs, s) => .ok (f :: fs, s)
    else
      let s := skipSpaces s
      if (peekTok s).typ = .caret then
        let (_, s) := nextTok s
        let s := skipSpaces s
        match prev.factor s with
        | .error e => .error e
        | .ok (f, s) =>
          match prev.termLoop s with
          | .error e => .error e
          | .ok (fs, s) => .ok (f :: fs, s)
      else
        .ok ([], s)
  factor := fun s =>
    let pos := (peekTok s).pos
    let (dollar, s) := countDollars s
    let (token, s) := nextTok s
    match token.typ with
    | .bare | .singleQuoted | .doubleQuoted =>
      match unquote token with
      | .error msg => .error (.err ⟨token.pos, msg⟩)
      | .ok text =>
        let c := if token.itemEnd &&& MayContinue ≠ 0 then
            some (NewArgContext token.val)
          else none
        .ok (.factor pos dollar (.str token.pos token.val text),
             { s with ctx := c })
    | .lParen =>
      match prev.termList s with
      | .error e => .error e
      | .ok (tl, s) =>
        let (tok, s) := nextTok s
        if tok.typ = .rParen then
          .ok (.factor pos dollar tl, s)
        else
          .error (.err ⟨tok.pos, unexpectedMsg tok "factor of item list"⟩)
    | .lBracket =>
      match prev.table s with
      | .error e => .error e
      | .ok (tn, s) => .ok (.factor pos dollar tn, s)
    | _ => .error (.err ⟨token.pos, unexpectedMsg token "factor"⟩)
  table := fun s =>
    let pos := (peekTok s).pos
    match prev.tableLoop s with
    | .error e => .error e
    | .ok ((ls, ps), s) => .ok (.table pos ls ps, s)
  tableLoop := fun s =>
    let s := skipSpaces s
    let tok := peekTok s
    if startsFactor tok.typ then
      match prev.term s with
      | .error e => .error e
      | .ok (t, s) =>
        let s := skipSpaces s
        let nx := peekTok s
        if nx.typ = .bare ∧ nx.val = "=" then
          let (_, s) := nextTok s
          let s := skipSpaces s
          match prev.term s with
          | .error e => .error e
          | .ok (v, s) =>
            match prev.tableLoop s with
            | .error e => .error e
            | .ok ((ls, ps), s) => .ok ((ls, (t, v) :: ps), s)
        else
          match prev.tableLoop s with
          | .error e => .error e
          | .ok ((ls, ps), s) => .ok ((t :: ls, ps), s)
    else if tok.typ = .rBracket then
      let (_, s) := nextTok s
      .ok (([], []), s)
    else
      .error (.err ⟨tok.pos, unexpectedMsg tok "table literal"⟩)
  redir := fun s =>
    let (leader, s) := nextTok s
    let (dir, qual) := splitLeader leader.val.data
    match dirFlagFd dir with
    | none =>
      .error (.err ⟨leader.pos,
        "Unexpected redirection direction " ++ goQuote dir.asString⟩)
    | some (flag, fd0) =>
      if qual.length > 0 then
        match indexRune '=' qual with
        | some i =>
          let lhs := qual.take i
          let rhs := qual.drop (i + 1)
          match (if lhs.length > 0 then Atou lhs else some fd0) with
          | none =>
            .error (.err ⟨leader.pos,
              "Invalid new fd in qualified redirection " ++ goQuote lhs.asString⟩)
          | some fd =>
            if rhs.length > 0 then
              match Atou rhs with
              | none =>
                .error (.err ⟨leader.pos,
                  "Invalid old fd in qualified redirection " ++ goQuote rhs.asString⟩)
              | some oldfd => .ok (.fdRedir fd oldfd, s)
            else
              .ok (.close fd, s)
        | none =>
          match Atou qual with
          | none =>
            .error (.err ⟨leader.pos,
              "Invalid new fd in qualified redirection " ++ goQuote qual.asString⟩)
          | some fd =>
            let s := skipSpaces s
            match prev.term s with
            | .error e => .error e
            | .ok (t, s) => .ok (.filename fd flag t, s)
      else
        let s := skipSpaces s
        match prev.term s with
        | .error e => .error e
        | .ok (t, s) => .ok (.filename fd0 flag t, s)

/-- The parser at a given fuel level. -/
def parsers : Nat → Parsers
  | 0 => failParsers
  | fuel + 1 => stepParsers (parsers fuel)

/-- `Pipeline = [ Command { "|" Command } ]` (`pipeline` in `parse.go`):
record the position of the raw next token, skip spaces, return an empty
list at end-of-input, otherwise parse `|`-separated commands. -/
def pipeline (fuel : Nat) (s : PState) : PR Node := (parsers fuel).pipeline s

/-- The command/separator loop inside `pipeline`: parse a command, then
dispatch on the next raw token (`|` continues, end-of-line or end-of-input
stops, anything else is "unexpected … in end of pipeline"). -/
def pipelineLoop (fuel : Nat) (s : PState) : PR (List Node) :=
  (parsers fuel).pipelineLoop s

/-- `Command = TermList { [ space ] Redir }` (`command` in `parse.go`). -/
def command (fuel : Nat) (s : PState) : PR Node := (parsers fuel).command s

/-- The redirection loop inside `command`: while the next non-space token is
a redirection leader, parse one redirection. -/
def commandLoop (fuel : Nat) (s : PState) : PR (List Redir) :=
  (parsers fuel).commandLoop s

/-- `TermList = [ space ] Term { [ space ] Term } [ space ]`
(`termList` in `parse.go`). -/
def termList (fuel : Nat) (s : PState) : PR Node := (parsers fuel).termList s

/-- The continuation loop of `termList`: while the next non-space token can
start a factor, parse another term. -/
def termListLoop (fuel : Nat) (s : PState) : PR (List Node) :=
  (parsers fuel).termListLoop s

/-- `Term = Factor { Factor | [ space ] '^' Factor [ space ] } [ space ]`
(`term` in `parse.go`). -/
def term (fuel : Nat) (s : PState) : PR Node := (parsers fuel).term s

/-- The continuation loop of `term`: a factor joined by juxtaposition (raw
one-token lookahead, no space skipping) or by `^` (whitespace allowed on
both sides of the caret). -/
def termLoop (fuel : Nat) (s : PState) : PR (List Node) :=
  (parsers fuel).termLoop s

/-- `Factor = '$' Factor | bare | single-quoted | double-quoted |
'(' TermList ')' | Table` (`factor` in `parse.go`); accepting a string
token also updates the continuation-context hint `Ctx`. -/
def factor (fuel : Nat) (s : PState) : PR Node := (parsers fuel).factor s

/-- `table` in `parse.go`: parse a table literal, the opening bracket
already consumed. -/
def table (fuel : Nat) (s : PState) : PR Node := (parsers fuel).table s

/-- The element loop of `table`: each element is a term, classified as a
mapping pair iff the following non-space token is the literal bare `=`;
a `]` ends the table; anything else is "unexpected … in table literal". -/
def tableLoop (fuel : Nat) (s : PState) : PR (List Node × List (Node × Node)) :=
  (parsers fuel).tableLoop s

/-- `redir` in `parse.go`: parse one redirection from its leader token. -/
def redir (fuel : Nat) (s : PState) : PR Redir := (parsers fuel).redir s

/-- The structured diagnostic surfaced on a failed parse
(`util.ContextualError`, constructed from `p.Name`, `p.text`, the offending
position and the formatted message). -/
structure ContextualError where
  name : String
  text : String
  pos : Nat
  msg : String
deriving DecidableEq, Repr

/-- A successful parse's outcome: the root node (`p.Root`) plus the final
continuation-context hint (`p.Ctx`). -/
structure Outcome where
  root : Node
  ctx : Option ArgContext

/-- The overall result of `Parse`: a tree, a single diagnostic (the source
panics a `ContextualError` which the top-level `recover` returns, the root
handle having been cleared by `errorf`), or fuel exhaustion (an artifact of
the embedding, impossible for sufficiently large fuel). -/
inductive ParseResult where
  | tree : Outcome → ParseResult
  | fail : ContextualError → ParseResult
  | fuelOut : ParseResult

set_option linter.unusedVariables false in
/-- `Parse` in `parse.go`: run `pipeline` on the token stream the lexer
produces for `text`; `tab` is stored but never read during parsing.  On
success the parser exposes the root and the hint; on a violation the single
diagnostic carries the script name, full source text, offending position
and message. -/
def Parse (name text : String) (tab : Bool) (toks : List Item) (fuel : Nat) :
    ParseResult :=
  match pipeline fuel ⟨toks, none⟩ with
  | .ok (root, s) => .tree ⟨root, s.ctx⟩
  | .error (.err v) => .fail ⟨name, text, v.pos, v.msg⟩
  | .error .fuel => .fuelOut

mutual
/-- `strictOk n`: every `ListNode` occurring anywhere in `n` (including `n`
itself) has at least one child.  Used to state the spec invariant that the
root pipeline is the sole legal zero-child `ListNode`. -/
def strictOk : Node → Bool
  | .list _ cs => !cs.isEmpty && strictOkList cs
  | .command tl rs => strictOk tl && strictOkRedirs rs
  | .factor _ _ n => strictOk n
  | .str _ _ _ => true
  | .table _ ls ps => strictOkList ls && strictOkPairs ps

/-- `strictOk` on every node of a list. -/
def strictOkList : List Node → Bool
  | [] => true
  | n :: ns => strictOk n && strictOkList ns

/-- `strictOk` on every key and value of a table's mapping part. -/
def strictOkPairs : List (Node × Node) → Bool
  | [] => true
  | (k, v) :: ps => strictOk k && strictOk v && strictOkPairs ps

/-- `strictOk` on a redirection's target expression, if any. -/
def strictOkRedir : Redir → Bool
  | .filename _ _ t => strictOk t
  | .fdRedir _ _ => true
  | .close _ => true

/-- `strictOkRedir` on every redirection of a list. -/
def strictOkRedirs : List Redir → Bool
  | [] => true
  | r :: rs => strictOkRedir r && strictOkRedirs rs
end

/-! Unfolding equations for the productions, one fuel level at a time. -/

theorem pipeline_zero (s : PState) : pipeline 0 s = .error .fuel := rfl

theorem pipelineLoop_zero (s : PState) : pipelineLoop 0 s = .error .fuel := rfl

theorem command_zero (s : PState) : command 0 s = .error .fuel := rfl

theorem commandLoop_zero (s : PState) : commandLoop 0 s = .error .fuel := rfl

theorem termList_zero (s : PState) : termList 0 s = .error .fuel := rfl

theorem termListLoop_zero (s : PState) : termListLoop 0 s = .error .fuel := rfl

theorem term_zero (s : PState) : term 0 s = .error .fuel := rfl

theorem termLoop_zero (s : PState) : termLoop 0 s = .error .fuel := rfl

theorem factor_zero (s : PState) : factor 0 s = .error .fuel := rfl

theorem table_zero (s : PState) : table 0 s = .error .fuel := rfl

theorem tableLoop_zero (s : PState) : tableLoop 0 s = .error .fuel := rfl

theorem redir_zero (s : PState) : redir 0 s = .error .fuel := rfl

theorem pipeline_succ (f : Nat) (s : PState) :
    pipeline (f + 1) s =
      (let pos := (peekTok s).pos
       let s := skipSpaces s
       if (peekTok s).typ = .eof then
         .ok (.list pos [], s)
       else
         match pipelineLoop f s with
         | .error e => .error e
         | .ok (cmds, s) => .ok (.list pos cmds, s)) := rfl

theorem pipelineLoop_succ (f : Nat) (s : PState) :
    pipelineLoop (f + 1) s =
      (match command f s with
       | .error e => .error e
       | .ok (cmd, s) =>
         let (tok, s) := nextTok s
         if tok.typ = .pipe then
           match pipelineLoop f s with
           | .error e => .error e
           | .ok (cmds, s) => .ok (cmd :: cmds, s)
         else if tok.typ = .endOfLine ∨ tok.typ = .eof then
           .ok ([cmd], s)
         else
           .error (.err ⟨tok.pos, unexpectedMsg tok "end of pipeline"⟩)) := rfl

theorem command_succ (f : Nat) (s : PState) :
    command (f + 1) s =
      (match termList f s with
       | .error e => .error e
       | .ok (tl, s) =>
         match commandLoop f s with
         | .error e => .error e
         | .ok (redirs, s) => .ok (.command tl redirs, s)) := rfl

theorem commandLoop_succ (f : Nat) (s : PState) :
    commandLoop (f + 1) s =
      (let s := skipSpaces s
       if (peekTok s).typ = .redirLeader then
         match redir f s with
         | .error e => .error e
         | .ok (r, s) =>
           match commandLoop f s with
           | .error e => .error e
           | .ok (rs, s) => .ok (r :: rs, s)
       else
         .ok ([], s)) := rfl

theorem termList_succ (f : Nat) (s : PState) :
    termList (f + 1) s =
      (let pos := (peekTok s).pos
       match term f s with
       | .error e => .error e
       | .ok (t, s) =>
         match termListLoop f s with
         | .error e => .error e
         | .ok (ts, s) => .ok (.list pos (t :: ts), s)) := rfl

theorem termListLoop_succ (f : Nat) (s : PState) :
    termListLoop (f + 1) s =
      (let s := skipSpaces s
       if startsFactor (peekTok s).typ then
         match term f s with
         | .error e => .error e
         | .ok (t, s) =>
           match termListLoop f s with
           | .error e => .error e
           | .ok (ts, s) => .ok (t :: ts, s)
       else
         .ok ([], s)) := rfl

theorem term_succ (f : Nat) (s : PState) :
    term (f + 1) s =
      (let pos := (peekTok s).pos
       match factor f s with
       | .error e => .error e
       | .ok (fc, s) =>
         match termLoop f s with
         | .error e => .error e
         | .ok (fs, s) => .ok (.list pos (fc :: fs), s)) := rfl

theorem termLoop_succ (f : Nat) (s : PState) :
    termLoop (f + 1) s =
      (if startsFactor (peekTok s).typ then
         match factor f s with
         | .error e => .error e
         | .ok (fc, s) =>
           match termLoop f s with
           | .error e => .error e
           | .ok (fs, s) => .ok (fc :: fs, s)
       else
         let s := skipSpaces s
         if (peekTok s).typ = .caret then
           let (_, s) := nextTok s
           let s := skipSpaces s
           match factor f s with
           | .error e => .error e
           | .ok (fc, s) =>
             match termLoop f s with
             | .error e => .error e
             | .ok (fs, s) => .ok (fc :: fs, s)
         else
           .ok ([], s)) := rfl

theorem factor_succ (f : Nat) (s : PState) :
    factor (f + 1) s =
      (let pos := (peekTok s).pos
       let (dollar, s) := countDollars s
       let (token, s) := nextTok s
       match token.typ with
       | .bare | .singleQuoted | .doubleQuoted =>
         match unquote token with
         | .error msg => .error (.err ⟨token.pos, msg⟩)
         | .ok text =>
           let c := if token.itemEnd &&& MayContinue ≠ 0 then
               some (NewArgContext token.val)
             else none
           .ok (.factor pos dollar (.str token.pos token.val text),
                { s with ctx := c })
       | .lParen =>
         match termList f s with
         | .error e => .error e
         | .ok (tl, s) =>
           let (tok, s) := nextTok s
           if tok.typ = .rParen then
             .ok (.factor pos dollar tl, s)
           else
             .error (.err ⟨tok.pos, unexpectedMsg tok "factor of item list"⟩)
       | .lBracket =>
         match table f s with
         | .error e => .error e
         | .ok (tn, s) => .ok (.factor pos dollar tn, s)
       | _ => .error (.err ⟨token.pos, unexpectedMsg token "factor"⟩)) := rfl

theorem table_succ (f : Nat) (s : PState) :
    table (f + 1) s =
      (let pos := (peekTok s).pos
       match tableLoop f s with
       | .error e => .error e
       | .ok ((ls, ps), s) => .ok (.table pos ls ps, s)) := rfl

theorem tableLoop_succ (f : Nat) (s : PState) :
    tableLoop (f + 1) s =
      (let s := skipSpaces s
       let tok := peekTok s
       if startsFactor tok.typ then
         match term f s with
         | .error e => .error e
         | .ok (t, s) =>
           let s := skipSpaces s
           let nx := peekTok s
           if nx.typ = .bare ∧ nx.val = "=" then
             let (_, s) := nextTok s
             let s := skipSpaces s
             match term f s with
             | .error e => .error e
             | .ok (v, s) =>
               match tableLoop f s with
               | .error e => .error e
               | .ok ((ls, ps), s) => .ok ((ls, (t, v) :: ps), s)
           else
             match tableLoop f s with
             | .error e => .error e
             | .ok ((ls, ps), s) => .ok ((t :: ls, ps), s)
       else if tok.typ = .rBracket then
         let (_, s) := nextTok s
         .ok (([], []), s)
       else
         .error (.err ⟨tok.pos, unexpectedMsg tok "table literal"⟩)) := rfl

theorem redir_succ (f : Nat) (s : PState) :
    redir (f + 1) s =
      (let (leader, s) := nextTok s
       let (dir, qual) := splitLeader leader.val.data
       match dirFlagFd dir with
       | none =>
         .error (.err ⟨leader.pos,
           "Unexpected redirection direction " ++ goQuote dir.asString⟩)
       | some (flag, fd0) =>
         if qual.length > 0 then
           match indexRune '=' qual with
           | some i =>
             let lhs := qual.take i
             let rhs := qual.drop (i + 1)
             match (if lhs.length > 0 then Atou lhs else some fd0) with
             | none =>
               .error (.err ⟨leader.pos,
                 "Invalid new fd in qualified redirection " ++ goQuote lhs.asString⟩)
             | some fd =>
               if rhs.length > 0 then
                 match Atou rhs with
                 | none =>
                   .error (.err ⟨leader.pos,
                     "Invalid old fd in qualified redirection " ++ goQuote rhs.asString⟩)
                 | some oldfd => .ok (.fdRedir fd oldfd, s)
               else
                 .ok (.close fd, s)
           | none =>
             match Atou qual with
             | none =>
               .error (.err ⟨leader.pos,
                 "Invalid new fd in qualified redirection " ++ goQuote qual.asString⟩)
             | some fd =>
               let s := skipSpaces s
               match term f s with
               | .error e => .error e
               | .ok (t, s) => .ok (.filename fd flag t, s)
         else
           let s := skipSpaces s
           match term f s with
           | .error e => .error e
           | .ok (t, s) => .ok (.filename fd0 flag t, s)) := rfl

/-! Small list facts used to reason about the leader/qualifier splits. -/

theorem take_len_append {α : Type} (l₁ l₂ : List α) :
    (l₁ ++ l₂).take l₁.length = l₁ := by
  induction l₁ with
  | nil => simp
  | cons x xs ih => simp [ih]

theorem drop_len_append {α : Type} (l₁ l₂ : List α) :
    (l₁ ++ l₂).drop l₁.length = l₂ := by
  induction l₁ with
  | nil => simp
  | cons x xs ih => simp [ih]

theorem dropLast_append_single {α : Type} (l : List α) (a : α) :
    (l ++ [a]).dropLast = l := List.dropLast_concat

/-- `indexRune` finds the first occurrence: on `d ++ a :: rest` with
`a ∉ d` it returns `d.length`. -/
theorem indexRune_append (a : Char) (d rest : List Char) (h : a ∉ d) :
    indexRune a (d ++ a :: rest) = some d.length := by
  induction d with
  | nil => simp [indexRune]
  | cons x xs ih =>
    simp only [List.mem_cons, not_or] at h
    have hx : ¬(x = a) := fun he => h.1 he.symm
    simp [indexRune, hx, ih h.2]

/-- Splitting a leader of the shape `d[q]` (first `[` not inside `d`)
yields direction `d` and qualifier `q`. -/
theorem splitLeader_shape (d q : List Char) (h : '[' ∉ d) :
    splitLeader (d ++ '[' :: (q ++ [']'])) = (d, q) := by
  unfold splitLeader
  rw [indexRune_append _ _ _ h]
  have htake : (d ++ '[' :: (q ++ [']'])).take d.length = d :=
    take_len_append d _
  have hshape : d ++ '[' :: (q ++ [']']) = (d ++ ['[']) ++ (q ++ [']']) := by
    simp
  have hdrop : (d ++ '[' :: (q ++ [']'])).drop (d.length + 1) = q ++ [']'] := by
    rw [hshape]
    have hlen : d.length + 1 = (d ++ ['[']).length := by simp
    rw [hlen, drop_len_append]
  simp only [htake, hdrop, dropLast_append_single]

/-- Behaviour of `redir` on a leader whose qualifier contains `=`
(`d[lhs=rhs]`): the new fd comes from a non-empty `lhs` (else the
direction's default), a non-empty `rhs` gives `FdRedir`, an empty `rhs`
gives `CloseRedir`, and no token beyond the leader is consumed. -/
theorem redir_qualified (ld : Item) (d lhs rhs : List Char) (flag fd0 : Nat)
    (rest : List Item) (c : Option ArgContext) (f : Nat)
    (hval : ld.val.data = d ++ '[' :: ((lhs ++ '=' :: rhs) ++ [']']))
    (hd : '[' ∉ d) (hl : '=' ∉ lhs)
    (hdir : dirFlagFd d = some (flag, fd0)) :
    redir (f + 1) ⟨ld :: rest, c⟩ =
      (match (if lhs.length > 0 then Atou lhs else some fd0) with
       | none =>
         .error (.err ⟨ld.pos,
           "Invalid new fd in qualified redirection " ++ goQuote lhs.asString⟩)
       | some fd =>
         if rhs.length > 0 then
           match Atou rhs with
           | none =>
             .error (.err ⟨ld.pos,
               "Invalid old fd in qualified redirection " ++ goQuote rhs.asString⟩)
           | some oldfd => .ok (.fdRedir fd oldfd, ⟨rest, c⟩)
         else
           .ok (.close fd, ⟨rest, c⟩)) := by
  rw [redir_succ]
  simp only [nextTok]
  rw [hval, splitLeader_shape _ _ hd, hdir]
  have hq : 0 < (lhs ++ '=' :: rhs).length := by simp
  have htake : (lhs ++ '=' :: rhs).take lhs.length = lhs := take_len_append lhs _
  have hdrop : (lhs ++ '=' :: rhs).drop (lhs.length + 1) = rhs := by
    have hshape : lhs ++ '=' :: rhs = (lhs ++ ['=']) ++ rhs := by simp
    rw [hshape]
    have hlen : lhs.length + 1 = (lhs ++ ['=']).length := by simp
    rw [hlen, drop_len_append]
  simp only [if_pos hq, indexRune_append _ _ _ hl, htake, hdrop]

/-! ### C1: redirection direction mapping -/

/-- C1: for every redirection-leader token, the direction text before any
`[` is mapped as `<` → (read-only, default fd 0), `<>` → (read-write-create,
fd 0), `>` → (write-create, fd 1), `>>` → (write-create-append, fd 1); any
other direction text aborts the parse with a fatal error at the leader's
position, and an unqualified leader yields `FilenameRedir` with the
direction's default fd and mapped flag applied to the following term (a
qualifier without `=`, e.g. `>>[2]`, only overrides the fd). -/
theorem c1_redir_direction_mapping :
    (∀ (p q r e : Nat) (vt : String) (c : Option ArgContext),
      redir 10 ⟨[⟨.redirLeader, p, "<", e⟩, ⟨.bare, q, vt, 0⟩,
                 ⟨.eof, r, "", 0⟩], c⟩ =
        .ok (.filename 0 O_RDONLY (.list q [.factor q 0 (.str q vt vt)]),
             ⟨[⟨.eof, r, "", 0⟩], none⟩)) ∧
    (∀ (p q r e : Nat) (vt : String) (c : Option ArgContext),
      redir 10 ⟨[⟨.redirLeader, p, "<>", e⟩, ⟨.bare, q, vt, 0⟩,
                 ⟨.eof, r, "", 0⟩], c⟩ =
        .ok (.filename 0 (O_RDWR ||| O_CREATE)
               (.list q [.factor q 0 (.str q vt vt)]),
             ⟨[⟨.eof, r, "", 0⟩], none⟩)) ∧
    (∀ (p q r e : Nat) (vt : String) (c : Option ArgContext),
      redir 10 ⟨[⟨.redirLeader, p, ">", e⟩, ⟨.bare, q, vt, 0⟩,
                 ⟨.eof, r, "", 0⟩], c⟩ =
        .ok (.filename 1 (O_WRONLY ||| O_CREATE)
               (.list q [.factor q 0 (.str q vt vt)]),
             ⟨[⟨.eof, r, "", 0⟩], none⟩)) ∧
    (∀ (p q r e : Nat) (vt : String) (c : Option ArgContext),
      redir 10 ⟨[⟨.redirLeader, p, ">>", e⟩, ⟨.bare, q, vt, 0⟩,
                 ⟨.eof, r, "", 0⟩], c⟩ =
        .ok (.filename 1 (O_WRONLY ||| O_CREATE ||| O_APPEND)
               (.list q [.factor q 0 (.str q vt vt)]),
             ⟨[⟨.eof, r, "", 0⟩], none⟩)) ∧
    (∀ (p q r e : Nat) (vt : String) (c : Option ArgContext),
      redir 10 ⟨[⟨.redirLeader, p, ">>[2]", e⟩, ⟨.bare, q, vt, 0⟩,
                 ⟨.eof, r, "", 0⟩], c⟩ =
        .ok (.filename 2 (O_WRONLY ||| O_CREATE ||| O_APPEND)
               (.list q [.factor q 0 (.str q vt vt)]),
             ⟨[⟨.eof, r, "", 0⟩], none⟩)) ∧
    (∀ (ld : Item) (d q : List Char) (rest : List Item)
       (c : Option ArgContext) (f : Nat),
      splitLeader ld.val.data = (d, q) →
      d ≠ "<".data → d ≠ "<>".data → d ≠ ">".data → d ≠ ">>".data →
      redir (f + 1) ⟨ld :: rest, c⟩ =
        .error (.err ⟨ld.pos,
          "Unexpected redirection direction " ++ goQuote d.asString⟩)) := by
  refine ⟨?_, ?_, ?_, ?_, ?_, ?_⟩
  · intros; with_unfolding_all rfl
  · intros; with_unfolding_all rfl
  · intros; with_unfolding_all rfl
  · intros; with_unfolding_all rfl
  · intros; with_unfolding_all rfl
  · intro ld d q rest c f hs h1 h2 h3 h4
    have hd : dirFlagFd d = none := by
      simp [dirFlagFd, h1, h2, h3, h4]
    rw [redir_succ]
    simp only [nextTok, hs, hd]

/-- Witness for C1: the unrecognized direction `<<` is rejected at the
leader's position. -/
theorem c1_redir_direction_mapping_witness :
    redir 3 ⟨[⟨.redirLeader, 5, "<<", 0⟩], none⟩ =
      .error (.err ⟨5,
        "Unexpected redirection direction " ++ goQuote (List.asString "<<".data)⟩) := by
  exact c1_redir_direction_mapping.2.2.2.2.2
    ⟨.redirLeader, 5, "<<", 0⟩ "<<".data [] [] none 2 rfl
    (by decide) (by decide) (by decide) (by decide)

/-! ### C2: qualified redirections containing `=` -/

/-- C2: for every redirection-leader whose bracketed qualifier is non-empty
and contains `=`, the qualifier is split at the first `=`; a non-empty lhs
overrides the default fd (non-numeric lhs is a fatal error); a non-empty
rhs is parsed as an unsigned integer and the result is `FdRedir fd oldFd`
with no following term consumed; an empty rhs yields `CloseRedir fd` with
no following term consumed.  In particular `>` with qualifier `2=1` yields
`FdRedir 2 1` and `>` with qualifier `3=` yields `CloseRedir 3`. -/
theorem c2_redir_fd_operations :
    (∀ (ld : Item) (d lhs rhs : List Char) (flag fd0 fd m : Nat)
       (rest : List Item) (c : Option ArgContext) (f : Nat),
      ld.val.data = d ++ '[' :: ((lhs ++ '=' :: rhs) ++ [']']) →
      '[' ∉ d → '=' ∉ lhs → dirFlagFd d = some (flag, fd0) →
      (if lhs.length > 0 then Atou lhs else some fd0) = some fd →
      rhs.length > 0 → Atou rhs = some m →
      redir (f + 1) ⟨ld :: rest, c⟩ = .ok (.fdRedir fd m, ⟨rest, c⟩)) ∧
    (∀ (ld : Item) (d lhs : List Char) (flag fd0 fd : Nat)
       (rest : List Item) (c : Option ArgContext) (f : Nat),
      ld.val.data = d ++ '[' :: ((lhs ++ '=' :: []) ++ [']']) →
      '[' ∉ d → '=' ∉ lhs → dirFlagFd d = some (flag, fd0) →
      (if lhs.length > 0 then Atou lhs else some fd0) = some fd →
      redir (f + 1) ⟨ld :: rest, c⟩ = .ok (.close fd, ⟨rest, c⟩)) ∧
    (∀ (ld : Item) (d lhs rhs : List Char) (flag fd0 : Nat)
       (rest : List Item) (c : Option ArgContext) (f : Nat),
      ld.val.data = d ++ '[' :: ((lhs ++ '=' :: rhs) ++ [']']) →
      '[' ∉ d → '=' ∉ lhs → dirFlagFd d = some (flag, fd0) →
      lhs.length > 0 → Atou lhs = none →
      redir (f + 1) ⟨ld :: rest, c⟩ =
        .error (.err ⟨ld.pos,
          "Invalid new fd in qualified redirection " ++ goQuote lhs.asString⟩)) ∧
    (∀ (ld : Item) (d lhs rhs : List Char) (flag fd0 fd : Nat)
       (rest : List Item) (c : Option ArgContext) (f : Nat),
      ld.val.data = d ++ '[' :: ((lhs ++ '=' :: rhs) ++ [']']) →
      '[' ∉ d → '=' ∉ lhs → dirFlagFd d = some (flag, fd0) →
      (if lhs.length > 0 then Atou lhs else some fd0) = some fd →
      rhs.length > 0 → Atou rhs = none →
      redir (f + 1) ⟨ld :: rest, c⟩ =
        .error (.err ⟨ld.pos,
          "Invalid old fd in qualified redirection " ++ goQuote rhs.asString⟩)) ∧
    (∀ (p e : Nat) (rest : List Item) (c : Option ArgContext),
      redir 5 ⟨⟨.redirLeader, p, ">[2=1]", e⟩ :: rest, c⟩ =
        .ok (.fdRedir 2 1, ⟨rest, c⟩)) ∧
    (∀ (p e : Nat) (rest : List Item) (c : Option ArgContext),
      redir 5 ⟨⟨.redirLeader, p, ">[3=]", e⟩ :: rest, c⟩ =
        .ok (.close 3, ⟨rest, c⟩)) := by
  refine ⟨?_, ?_, ?_, ?_, ?_, ?_⟩
  · intro ld d lhs rhs flag fd0 fd m rest c f hval hd hl hdir hfd hrh hm
    rw [redir_qualified ld d lhs rhs flag fd0 rest c f hval hd hl hdir]
    simp only [hfd, if_pos hrh, hm]
  · intro ld d lhs flag fd0 fd rest c f hval hd hl hdir hfd
    rw [redir_qualified ld d lhs [] flag fd0 rest c f hval hd hl hdir]
    simp only [hfd, List.length_nil, gt_iff_lt, lt_self_iff_false, if_false]
  · intro ld d lhs rhs flag fd0 rest c f hval hd hl hdir hlen ha
    rw [redir_qualified ld d lhs rhs flag fd0 rest c f hval hd hl hdir]
    simp only [if_pos hlen, ha]
  · intro ld d lhs rhs flag fd0 fd rest c f hval hd hl hdir hfd hrh hm
    rw [redir_qualified ld d lhs rhs flag fd0 rest c f hval hd hl hdir]
    simp only [hfd, if_pos hrh, hm]
  · intros; with_unfolding_all rfl
  · intros; with_unfolding_all rfl

/-- Witness for C2: `<[7=3]` duplicates fd 3 onto fd 7 (lhs overrides the
direction's default fd 0), consuming no token beyond the leader. -/
theorem c2_redir_fd_operations_witness :
    redir 4 ⟨[⟨.redirLeader, 2, "<[7=3]", 0⟩], none⟩ =
      .ok (.fdRedir 7 3, ⟨[], none⟩) := by
  exact c2_redir_fd_operations.1
    ⟨.redirLeader, 2, "<[7=3]", 0⟩ "<".data ['7'] ['3'] O_RDONLY 0 7 3 [] none 3
    rfl (by decide) (by decide) (by decide) (by decide) (by decide) (by decide)

/-! ### C6: single-quoted literal decoding -/

/-- C6: decoding a single-quoted token strips exactly the outer
quote-delimiter characters (the backquote) and replaces every pair of two
consecutive delimiter characters in the interior with one literal delimiter
character, with no other transformation; in particular the quoted lexeme
with interior `don` + doubled delimiter + `t` decodes to ``don`t``. -/
theorem c6_single_quote_decoding :
    (∀ (p e : Nat) (inner : List Char),
      unquote ⟨.singleQuoted, p, ('`' :: (inner ++ ['`'])).asString, e⟩ =
        .ok (replaceDoubled '`' inner).asString) ∧
    (∀ (d : Char) (xs : List Char),
      replaceDoubled d (d :: d :: xs) = d :: replaceDoubled d xs) ∧
    (∀ (d c : Char) (xs : List Char), c ≠ d →
      replaceDoubled d (c :: xs) = c :: replaceDoubled d xs) ∧
    (∀ (d : Char), replaceDoubled d [] = []) ∧
    (unquote ⟨.singleQuoted, 0, "`don``t`", 0⟩ = .ok "don`t") := by
  refine ⟨?_, ?_, ?_, ?_, rfl⟩
  · intro p e inner
    simp only [unquote]
    rw [show (('`' :: (inner ++ ['`'])).asString).data
          = '`' :: (inner ++ ['`']) from rfl]
    rw [show ('`' :: (inner ++ ['`'])).drop 1 = inner ++ ['`'] from rfl]
    rw [dropLast_append_single]
  · intro d xs
    simp [replaceDoubled]
  · intro d c xs h
    cases xs with
    | nil => simp [replaceDoubled]
    | cons y ys => simp [replaceDoubled, h]
  · intro d
    simp [replaceDoubled]

/-- Witness for C6: a non-delimiter character is passed through unchanged
by the doubled-delimiter replacement. -/
theorem c6_single_quote_decoding_witness :
    replaceDoubled '`' ['x'] = ['x'] := by
  exact c6_single_quote_decoding.2.2.1 '`' 'x' [] (by decide)

/-! ### C10: juxtaposition requires adjacency, `^` tolerates spaces -/

/-- C10: inside a term, a further factor is joined by juxtaposition only
when it starts at the immediately next token (the juxtaposition lookahead
does not skip space tokens), while a `^` join may be surrounded by
whitespace; hence `a b` parses as two terms of the term-list while
`a ^ b` parses as a single term with two factors. -/
theorem c10_juxtaposition_adjacency :
    (∀ (f : Nat) (t : Item) (rest : List Item) (c : Option ArgContext),
      t.typ = .space →
      (peekTok (skipSpaces ⟨rest, c⟩)).typ ≠ .caret →
      termLoop (f + 1) ⟨t :: rest, c⟩ = .ok ([], skipSpaces ⟨rest, c⟩)) ∧
    (∀ (f : Nat) (t : Item) (rest : List Item) (c : Option ArgContext),
      t.typ = .space →
      (peekTok (skipSpaces ⟨rest, c⟩)).typ = .caret →
      termLoop (f + 1) ⟨t :: rest, c⟩ =
        (match factor f (skipSpaces ((nextTok (skipSpaces ⟨rest, c⟩)).2)) with
         | .error e => .error e
         | .ok (fc, s) =>
           match termLoop f s with
           | .error e => .error e
           | .ok (fs, s) => .ok (fc :: fs, s))) ∧
    (∀ (p0 p1 p2 p3 : Nat) (va vb : String) (c : Option ArgContext),
      termList 10 ⟨[⟨.bare, p0, va, 0⟩, ⟨.space, p1, " ", 0⟩,
                    ⟨.bare, p2, vb, 0⟩, ⟨.eof, p3, "", 0⟩], c⟩ =
        .ok (.list p0 [.list p0 [.factor p0 0 (.str p0 va va)],
                       .list p2 [.factor p2 0 (.str p2 vb vb)]],
             ⟨[⟨.eof, p3, "", 0⟩], none⟩)) ∧
    (∀ (p0 p1 p2 p3 p4 p5 : Nat) (va vb : String) (c : Option ArgContext),
      termList 10 ⟨[⟨.bare, p0, va, 0⟩, ⟨.space, p1, " ", 0⟩,
                    ⟨.caret, p2, "^", 0⟩, ⟨.space, p3, " ", 0⟩,
                    ⟨.bare, p4, vb, 0⟩, ⟨.eof, p5, "", 0⟩], c⟩ =
        .ok (.list p0 [.list p0 [.factor p0 0 (.str p0 va va),
                                 .factor p4 0 (.str p4 vb vb)]],
             ⟨[⟨.eof, p5, "", 0⟩], none⟩)) := by
  refine ⟨?_, ?_, ?_, ?_⟩
  · intro f t rest c ht hc
    have h1 : ¬(startsFactor (peekTok ⟨t :: rest, c⟩).typ = true) := by
      simp [peekTok, ht, startsFactor]
    have h2 : skipSpaces ⟨t :: rest, c⟩ = skipSpaces ⟨rest, c⟩ := by
      simp [skipSpaces, dropSpacesList, ht]
    rw [termLoop_succ, if_neg h1]
    simp only [h2, if_neg hc]
  · intro f t rest c ht hc
    have h1 : ¬(startsFactor (peekTok ⟨t :: rest, c⟩).typ = true) := by
      simp [peekTok, ht, startsFactor]
    have h2 : skipSpaces ⟨t :: rest, c⟩ = skipSpaces ⟨rest, c⟩ := by
      simp [skipSpaces, dropSpacesList, ht]
    rw [termLoop_succ, if_neg h1]
    simp only [h2, if_pos hc]
  · intros; with_unfolding_all rfl
  · intros; with_unfolding_all rfl

/-- Witness for C10: after a space the loop stops before a bare token (the
factor is not juxtaposed across whitespace). -/
theorem c10_juxtaposition_adjacency_witness :
    termLoop 4 ⟨[⟨.space, 1, " ", 0⟩, ⟨.bare, 2, "b", 0⟩], none⟩ =
      .ok ([], skipSpaces ⟨[⟨.bare, 2, "b", 0⟩], none⟩) := by
  exact c10_juxtaposition_adjacency.1 3 ⟨.space, 1, " ", 0⟩
    [⟨.bare, 2, "b", 0⟩] none rfl (by decide)

/-! ### C4: `^`-joined factors carry no structural marker -/

/-- C4 counterexample: a `^`-joined token stream and a juxtaposed token
stream produce byte-for-byte identical term trees (same factor positions,
same final state), so the tree does not record which factors were
`^`-joined — contradicting the claim that the distinction is structurally
preserved and recoverable from the tree. -/
theorem c4_join_marker_counterexample :
    term 10 ⟨[⟨.bare, 0, "a", 0⟩, ⟨.caret, 1, "^", 0⟩, ⟨.bare, 2, "b", 0⟩,
              ⟨.eof, 3, "", 0⟩], none⟩ =
      .ok (.list 0 [.factor 0 0 (.str 0 "a" "a"),
                    .factor 2 0 (.str 2 "b" "b")],
           ⟨[⟨.eof, 3, "", 0⟩], none⟩) ∧
    term 10 ⟨[⟨.bare, 0, "a", 0⟩, ⟨.bare, 2, "b", 0⟩, ⟨.eof, 3, "", 0⟩],
             none⟩ =
      .ok (.list 0 [.factor 0 0 (.str 0 "a" "a"),
                    .factor 2 0 (.str 2 "b" "b")],
           ⟨[⟨.eof, 3, "", 0⟩], none⟩) := ⟨rfl, rfl⟩

/-- C4 (amended): all joined factors — `^`-joined or juxtaposed — are
recorded as siblings, in source order, in the term's child list; but the
tree carries no marker of which factors were `^`-joined (a `^`-joined and a
juxtaposed stream can yield identical trees). -/
theorem c4_join_siblings_unmarked :
    (∀ (p0 p1 p2 p3 : Nat) (va vb : String) (c : Option ArgContext),
      term 10 ⟨[⟨.bare, p0, va, 0⟩, ⟨.caret, p1, "^", 0⟩,
                ⟨.bare, p2, vb, 0⟩, ⟨.eof, p3, "", 0⟩], c⟩ =
        .ok (.list p0 [.factor p0 0 (.str p0 va va),
                       .factor p2 0 (.str p2 vb vb)],
             ⟨[⟨.eof, p3, "", 0⟩], none⟩)) ∧
    term 10 ⟨[⟨.bare, 0, "a", 0⟩, ⟨.caret, 1, "^", 0⟩, ⟨.bare, 2, "b", 0⟩,
              ⟨.eof, 3, "", 0⟩], none⟩ =
      term 10 ⟨[⟨.bare, 0, "a", 0⟩, ⟨.bare, 2, "b", 0⟩, ⟨.eof, 3, "", 0⟩],
               none⟩ := by
  refine ⟨?_, rfl⟩
  intros; with_unfolding_all rfl

/-! ### C5: the continuation-context hint -/

/-- C5 counterexample: the hint recorded for an accepted string token is
`NewArgContext(token.Val)` — the token's raw text — not a value derived
from its decoded semantic text: two tokens with equal decoded text (`a`)
but different raw text (`a` vs backquoted `a`) produce different hints, so
no function of the decoded text yields the hint. -/
theorem c5_hint_counterexample :
    unquote ⟨.bare, 0, "a", 1⟩ = .ok "a" ∧
    unquote ⟨.singleQuoted, 0, "`a`", 1⟩ = .ok "a" ∧
    Parse "s" "a" false [⟨.bare, 0, "a", 1⟩, ⟨.eof, 1, "", 0⟩] 10 =
      .tree ⟨.list 0 [.command
               (.list 0 [.list 0 [.factor 0 0 (.str 0 "a" "a")]]) []],
             some (NewArgContext "a")⟩ ∧
    Parse "s" "'a'" false [⟨.singleQuoted, 0, "`a`", 1⟩, ⟨.eof, 3, "", 0⟩] 10 =
      .tree ⟨.list 0 [.command
               (.list 0 [.list 0 [.factor 0 0 (.str 0 "`a`" "a")]]) []],
             some (NewArgContext "`a`")⟩ ∧
    NewArgContext "a" ≠ NewArgContext "`a`" :=
  ⟨rfl, rfl, rfl, rfl, by decide⟩

/-- C5 (amended): whenever a bare / single-quoted / double-quoted token is
accepted inside a factor, the continuation hint is set to
`NewArgContext(token.Val)` — derived from the token's raw text — if the
token's continuable flag is set, and cleared otherwise, independently of
the previous hint; the outcome's hint is the one of the last accepted
token. -/
theorem c5_hint_from_raw_text :
    (∀ (f : Nat) (tok : Item) (rest : List Item) (c : Option ArgContext)
       (txt : String),
      tok.typ = .bare ∨ tok.typ = .singleQuoted ∨ tok.typ = .doubleQuoted →
      unquote tok = .ok txt →
      factor (f + 1) ⟨tok :: rest, c⟩ =
        .ok (.factor tok.pos 0 (.str tok.pos tok.val txt),
             ⟨rest, if tok.itemEnd &&& MayContinue ≠ 0 then
                      some (NewArgContext tok.val)
                    else none⟩)) ∧
    (Parse "s" "x y" false
       [⟨.bare, 0, "x", 1⟩, ⟨.space, 1, " ", 0⟩,
        ⟨.bare, 2, "y", 0⟩, ⟨.eof, 3, "", 0⟩] 10 =
      .tree ⟨.list 0 [.command
               (.list 0 [.list 0 [.factor 0 0 (.str 0 "x" "x")],
                         .list 2 [.factor 2 0 (.str 2 "y" "y")]]) []],
             none⟩) ∧
    (Parse "s" "x y" false
       [⟨.bare, 0, "x", 0⟩, ⟨.space, 1, " ", 0⟩,
        ⟨.bare, 2, "y", 1⟩, ⟨.eof, 3, "", 0⟩] 10 =
      .tree ⟨.list 0 [.command
               (.list 0 [.list 0 [.factor 0 0 (.str 0 "x" "x")],
                         .list 2 [.factor 2 0 (.str 2 "y" "y")]]) []],
             some (NewArgContext "y")⟩) := by
  refine ⟨?_, rfl, rfl⟩
  intro f tok rest c txt hty hunq
  obtain ⟨ty, p, v, e⟩ := tok
  rcases hty with h | h | h <;> subst h
  · rw [factor_succ]
    have hnd : countDollars ⟨⟨.bare, p, v, e⟩ :: rest, c⟩ =
        (0, ⟨⟨.bare, p, v, e⟩ :: rest, c⟩) := by
      simp [countDollars, countDollarsList]
    simp only [hnd, nextTok, peekTok, List.headD, hunq]
  · rw [factor_succ]
    have hnd : countDollars ⟨⟨.singleQuoted, p, v, e⟩ :: rest, c⟩ =
        (0, ⟨⟨.singleQuoted, p, v, e⟩ :: rest, c⟩) := by
      simp [countDollars, countDollarsList]
    simp only [hnd, nextTok, peekTok, List.headD, hunq]
  · rw [factor_succ]
    have hnd : countDollars ⟨⟨.doubleQuoted, p, v, e⟩ :: rest, c⟩ =
        (0, ⟨⟨.doubleQuoted, p, v, e⟩ :: rest, c⟩) := by
      simp [countDollars, countDollarsList]
    simp only [hnd, nextTok, peekTok, List.headD, hunq]

/-- Witness for C5: a continuable bare token sets the hint to its raw
text. -/
theorem c5_hint_from_raw_text_witness :
    factor 3 ⟨[⟨.bare, 0, "hi", 1⟩], none⟩ =
      .ok (.factor 0 0 (.str 0 "hi" "hi"),
           ⟨[], if (1 : Nat) &&& MayContinue ≠ 0 then
                  some (NewArgContext "hi")
                else none⟩) := by
  exact c5_hint_from_raw_text.1 2 ⟨.bare, 0, "hi", 1⟩ [] none "hi"
    (Or.inl rfl) rfl

/-! ### C3: table element classification -/

/-- C3 counterexample: in the table literal `[a b c=d]` with `=` lexed as a
bare token immediately after `c` (no whitespace), the term parser's
juxtaposition lookahead absorbs `=` and `d` into the leading term, so the
table ends with a three-element list part and an EMPTY mapping part — not
the claimed mapping pair (c, d). -/
theorem c3_table_lookahead_counterexample :
    table 20 ⟨[⟨.bare, 1, "a", 0⟩, ⟨.space, 2, " ", 0⟩,
               ⟨.bare, 3, "b", 0⟩, ⟨.space, 4, " ", 0⟩,
               ⟨.bare, 5, "c", 0⟩, ⟨.bare, 6, "=", 0⟩, ⟨.bare, 7, "d", 0⟩,
               ⟨.rBracket, 8, "]", 0⟩], none⟩ =
      .ok (.table 1
             [.list 1 [.factor 1 0 (.str 1 "a" "a")],
              .list 3 [.factor 3 0 (.str 3 "b" "b")],
              .list 5 [.factor 5 0 (.str 5 "c" "c"),
                       .factor 6 0 (.str 6 "=" "="),
                       .factor 7 0 (.str 7 "d" "d")]]
             [],
           ⟨[], none⟩) := rfl

/-- C3 (amended): each table element is classified by one-token lookahead —
after the leading term, a following non-space literal bare `=` token makes
the element a mapping pair (the `=` is consumed and a value term parsed),
otherwise the term joins the list part; the example needs whitespace before
`=`: `[a b c = d]` yields list part `a`, `b` and mapping part `[(c, d)]`,
whereas with `=` adjacent to `c` the `=` and `d` are juxtaposed into the
leading term, which lands in the list part. -/
theorem c3_table_lookahead :
    (∀ (f : Nat) (s s1 s2 s3 : PState) (t v : Node)
       (ls : List Node) (ps : List (Node × Node)),
      startsFactor (peekTok (skipSpaces s)).typ = true →
      term f (skipSpaces s) = .ok (t, s1) →
      (peekTok (skipSpaces s1)).typ = .bare →
      (peekTok (skipSpaces s1)).val = "=" →
      term f (skipSpaces ((nextTok (skipSpaces s1)).2)) = .ok (v, s2) →
      tableLoop f s2 = .ok ((ls, ps), s3) →
      tableLoop (f + 1) s = .ok ((ls, (t, v) :: ps), s3)) ∧
    (∀ (f : Nat) (s s1 s2 : PState) (t : Node)
       (ls : List Node) (ps : List (Node × Node)),
      startsFactor (peekTok (skipSpaces s)).typ = true →
      term f (skipSpaces s) = .ok (t, s1) →
      ¬((peekTok (skipSpaces s1)).typ = .bare ∧
        (peekTok (skipSpaces s1)).val = "=") →
      tableLoop f (skipSpaces s1) = .ok ((ls, ps), s2) →
      tableLoop (f + 1) s = .ok ((t :: ls, ps), s2)) ∧
    (∀ (p1 p2 p3 p4 p5 p6 p7 p8 p9 p10 : Nat) (c : Option ArgContext),
      table 20 ⟨[⟨.bare, p1, "a", 0⟩, ⟨.space, p2, " ", 0⟩,
                 ⟨.bare, p3, "b", 0⟩, ⟨.space, p4, " ", 0⟩,
                 ⟨.bare, p5, "c", 0⟩, ⟨.space, p6, " ", 0⟩,
                 ⟨.bare, p7, "=", 0⟩, ⟨.space, p8, " ", 0⟩,
                 ⟨.bare, p9, "d", 0⟩, ⟨.rBracket, p10, "]", 0⟩], c⟩ =
        .ok (.table p1
               [.list p1 [.factor p1 0 (.str p1 "a" "a")],
                .list p3 [.factor p3 0 (.str p3 "b" "b")]]
               [(.list p5 [.factor p5 0 (.str p5 "c" "c")],
                 .list p9 [.factor p9 0 (.str p9 "d" "d")])],
             ⟨[], none⟩)) := by
  refine ⟨?_, ?_, ?_⟩
  · intro f s s1 s2 s3 t v ls ps hsf ht hb hv hv2 htl
    rw [tableLoop_succ, if_pos hsf]
    simp only [ht]
    rw [if_pos (show (peekTok (skipSpaces s1)).typ = .bare ∧
          (peekTok (skipSpaces s1)).val = "=" from ⟨hb, hv⟩)]
    simp only [hv2, htl]
  · intro f s s1 s2 t ls ps hsf ht hne htl
    rw [tableLoop_succ, if_pos hsf]
    simp only [ht]
    rw [if_neg hne]
    simp only [htl]
  · intros; with_unfolding_all rfl

/-- Witness for C3: a term not followed by a bare `=` joins the table's
list part. -/
theorem c3_table_lookahead_witness :
    tableLoop 11 ⟨[⟨.bare, 0, "a", 0⟩, ⟨.rBracket, 1, "]", 0⟩], none⟩ =
      .ok (([.list 0 [.factor 0 0 (.str 0 "a" "a")]], []), ⟨[], none⟩) := by
  exact c3_table_lookahead.2.1 10
    ⟨[⟨.bare, 0, "a", 0⟩, ⟨.rBracket, 1, "]", 0⟩], none⟩
    ⟨[⟨.rBracket, 1, "]", 0⟩], none⟩ ⟨[], none⟩
    (.list 0 [.factor 0 0 (.str 0 "a" "a")]) [] []
    rfl rfl (by decide) rfl

/-! ### C9: determinism -/

/-- C9: parsing is deterministic — two parse runs on the same source text,
script name, tab flag (and token stream) give identical outcomes: equal
trees (deep structural equality) on success and equal diagnostics on
failure.  The embedding is a pure function of these inputs, mirroring the
source parser, which reads no state other than the token stream. -/
theorem c9_parse_deterministic :
    ∀ (name text : String) (tab : Bool) (toks : List Item) (fuel : Nat)
      (r1 r2 : ParseResult),
      Parse name text tab toks fuel = r1 →
      Parse name text tab toks fuel = r2 →
      r1 = r2 ∧
      (∀ o1 o2, r1 = .tree o1 → r2 = .tree o2 →
        o1.root = o2.root ∧ o1.ctx = o2.ctx) ∧
      (∀ e1 e2, r1 = .fail e1 → r2 = .fail e2 → e1 = e2) := by
  intro name text tab toks fuel r1 r2 h1 h2
  subst h1
  subst h2
  refine ⟨rfl, ?_, ?_⟩
  · intro o1 o2 ho1 ho2
    rw [ho1] at ho2
    cases ho2
    exact ⟨rfl, rfl⟩
  · intro e1 e2 he1 he2
    rw [he1] at he2
    cases he2
    rfl

/-- Witness for C9: two runs on the empty pipeline agree. -/
theorem c9_parse_deterministic_witness :
    Parse "s" "" false [⟨.eof, 0, "", 0⟩] 3 =
      Parse "s" "" false [⟨.eof, 0, "", 0⟩] 3 := by
  exact (c9_parse_deterministic "s" "" false [⟨.eof, 0, "", 0⟩] 3
    (Parse "s" "" false [⟨.eof, 0, "", 0⟩] 3)
    (Parse "s" "" false [⟨.eof, 0, "", 0⟩] 3) rfl rfl).1

/-! ### C8: exclusive outcome, single diagnostic -/

/-- C8: for every input (at any fuel that does not exhaust the embedding's
fuel bound), the parse outcome is exclusive: either a complete tree is
returned with no diagnostic, or no tree is returned together with exactly
one diagnostic carrying the script name, the full source text, a byte
offset and a formatted message; the outcome type has no branch exposing
both, so no partial tree is ever exposed. -/
theorem c8_outcome_exclusive :
    ∀ (name text : String) (tab : Bool) (toks : List Item) (fuel : Nat),
      Parse name text tab toks fuel ≠ .fuelOut →
      (∃ o : Outcome, Parse name text tab toks fuel = .tree o) ∨
      (∃ (pos : Nat) (msg : String),
        Parse name text tab toks fuel = .fail ⟨name, text, pos, msg⟩) := by
  intro name text tab toks fuel hne
  cases h : pipeline fuel ⟨toks, none⟩ with
  | ok v =>
    obtain ⟨root, s⟩ := v
    exact Or.inl ⟨⟨root, s.ctx⟩, by simp [Parse, h]⟩
  | error e =>
    cases e with
    | err v =>
      obtain ⟨pos, msg⟩ := v
      exact Or.inr ⟨pos, msg, by simp [Parse, h]⟩
    | fuel =>
      exact absurd (by simp [Parse, h]) hne

/-- Witness for C8: the empty pipeline yields the tree branch. -/
theorem c8_outcome_exclusive_witness :
    (∃ o : Outcome, Parse "s" "" false [⟨.eof, 0, "", 0⟩] 3 = .tree o) ∨
    (∃ (pos : Nat) (msg : String),
      Parse "s" "" false [⟨.eof, 0, "", 0⟩] 3 = .fail ⟨"s", "", pos, msg⟩) := by
  exact c8_outcome_exclusive "s" "" false [⟨.eof, 0, "", 0⟩] 3
    (fun h => ParseResult.noConfusion
      (show ParseResult.tree ⟨.list 0 [], none⟩ = .fuelOut from h))

/-! ### C7: list-node invariants.  The soundness pack below is proved by
one induction on fuel, covering all mutually recursive productions. -/

theorem parse_nodes_sound : ∀ f : Nat,
    (∀ s r s', factor f s = .ok (r, s') → strictOk r = true) ∧
    (∀ s r s', term f s = .ok (r, s') →
      (∃ p c cs, r = .list p (c :: cs)) ∧ strictOk r = true) ∧
    (∀ s rs s', termLoop f s = .ok (rs, s') → strictOkList rs = true) ∧
    (∀ s r s', termList f s = .ok (r, s') →
      (∃ p c cs, r = .list p (c :: cs)) ∧ strictOk r = true) ∧
    (∀ s rs s', termListLoop f s = .ok (rs, s') → strictOkList rs = true) ∧
    (∀ s r s', redir f s = .ok (r, s') → strictOkRedir r = true) ∧
    (∀ s rs s', commandLoop f s = .ok (rs, s') → strictOkRedirs rs = true) ∧
    (∀ s r s', command f s = .ok (r, s') → strictOk r = true) ∧
    (∀ s lp s', tableLoop f s = .ok (lp, s') →
      strictOkList lp.1 = true ∧ strictOkPairs lp.2 = true) ∧
    (∀ s r s', table f s = .ok (r, s') → strictOk r = true) ∧
    (∀ s cs s', pipelineLoop f s = .ok (cs, s') →
      strictOkList cs = true ∧ cs ≠ []) ∧
    (∀ s r s', pipeline f s = .ok (r, s') →
      ∃ p cs, r = .list p cs ∧ strictOkList cs = true ∧
        (cs = [] ↔ (peekTok (skipSpaces s)).typ = .eof)) := by
  intro f
  induction f with
  | zero =>
    refine ⟨?_, ?_, ?_, ?_, ?_, ?_, ?_, ?_, ?_, ?_, ?_, ?_⟩ <;>
      intro s a s' h
    · simp [factor_zero] at h
    · simp [term_zero] at h
    · simp [termLoop_zero] at h
    · simp [termList_zero] at h
    · simp [termListLoop_zero] at h
    · simp [redir_zero] at h
    · simp [commandLoop_zero] at h
    · simp [command_zero] at h
    · simp [tableLoop_zero] at h
    · simp [table_zero] at h
    · simp [pipelineLoop_zero] at h
    · simp [pipeline_zero] at h
  | succ f ih =>
    obtain ⟨ihF, ihT, ihTLp, ihTLst, ihTLL, ihR, ihCL, ihC, ihTabL, ihTab,
            ihPL, ihP⟩ := ih
    refine ⟨?_, ?_, ?_, ?_, ?_, ?_, ?_, ?_, ?_, ?_, ?_, ?_⟩
    · -- factor
      intro s r s' h
      rw [factor_succ] at h
      simp only [] at h
      split at h
      · split at h
        · simp at h
        · injection h with h1
          injection h1 with hr hs
          subst hr
          simp [strictOk]
      · split at h
        · simp at h
        · injection h with h1
          injection h1 with hr hs
          subst hr
          simp [strictOk]
      · split at h
        · simp at h
        · injection h with h1
          injection h1 with hr hs
          subst hr
          simp [strictOk]
      · split at h
        · simp at h
        · rename_i tl st heq
          split at h
          · injection h with h1
            injection h1 with hr hs
            subst hr
            simp only [strictOk]
            exact (ihTLst _ _ _ heq).2
          · simp at h
      · split at h
        · simp at h
        · rename_i tn st heq
          injection h with h1
          injection h1 with hr hs
          subst hr
          simp only [strictOk]
          exact ihTab _ _ _ heq
      · simp at h
    · -- term
      intro s r s' h
      rw [term_succ] at h
      simp only [] at h
      split at h
      · simp at h
      · rename_i fc s1 heqF
        split at h
        · simp at h
        · rename_i fs s2 heqL
          injection h with h1
          injection h1 with hr hs
          subst hr
          refine ⟨⟨_, _, _, rfl⟩, ?_⟩
          simp [strictOk, strictOkList, ihF _ _ _ heqF, ihTLp _ _ _ heqL]
    · -- termLoop
      intro s rs s' h
      rw [termLoop_succ] at h
      simp only [] at h
      split at h
      · split at h
        · simp at h
        · rename_i fc s1 heqF
          split at h
          · simp at h
          · rename_i fs s2 heqL
            injection h with h1
            injection h1 with hr hs
            subst hr
            simp [strictOkList, ihF _ _ _ heqF, ihTLp _ _ _ heqL]
      · split at h
        · split at h
          · simp at h
          · rename_i fc s1 heqF
            split at h
            · simp at h
            · rename_i fs s2 heqL
              injection h with h1
              injection h1 with hr hs
              subst hr
              simp [strictOkList, ihF _ _ _ heqF, ihTLp _ _ _ heqL]
        · injection h with h1
          injection h1 with hr hs
          subst hr
          simp [strictOkList]
    · -- termList
      intro s r s' h
      rw [termList_succ] at h
      simp only [] at h
      split at h
      · simp at h
      · rename_i t1 s1 heqT
        split at h
        · simp at h
        · rename_i ts s2 heqL
          injection h with h1
          injection h1 with hr hs
          subst hr
          refine ⟨⟨_, _, _, rfl⟩, ?_⟩
          simp [strictOk, strictOkList, (ihT _ _ _ heqT).2, ihTLL _ _ _ heqL]
    · -- termListLoop
      intro s rs s' h
      rw [termListLoop_succ] at h
      simp only [] at h
      split at h
      · split at h
        · simp at h
        · rename_i t1 s1 heqT
          split at h
          · simp at h
          · rename_i ts s2 heqL
            injection h with h1
            injection h1 with hr hs
            subst hr
            simp [strictOkList, (ihT _ _ _ heqT).2, ihTLL _ _ _ heqL]
      · injection h with h1
        injection h1 with hr hs
        subst hr
        simp [strictOkList]
    · -- redir
      intro s r s' h
      rw [redir_succ] at h
      simp only [] at h
      split at h
      · simp at h
      · rename_i x flag fd0 heqD
        split at h
        · split at h
          · rename_i i heqI
            split at h
            · simp at h
            · rename_i fd hfd
              split at h
              · split at h
                · simp at h
                · injection h with h1
                  injection h1 with hr hs
                  subst hr
                  simp [strictOkRedir]
              · injection h with h1
                injection h1 with hr hs
                subst hr
                simp [strictOkRedir]
          · split at h
            · simp at h
            · rename_i fd hfd
              split at h
              · simp at h
              · rename_i t1 s1 heqT
                injection h with h1
                injection h1 with hr hs
                subst hr
                simp only [strictOkRedir]
                exact (ihT _ _ _ heqT).2
        · split at h
          · simp at h
          · rename_i t1 s1 heqT
            injection h with h1
            injection h1 with hr hs
            subst hr
            simp only [strictOkRedir]
            exact (ihT _ _ _ heqT).2
    · -- commandLoop
      intro s rs s' h
      rw [commandLoop_succ] at h
      simp only [] at h
      split at h
      · split at h
        · simp at h
        · rename_i r1 s1 heqR
          split at h
          · simp at h
          · rename_i rs1 s2 heqL
            injection h with h1
            injection h1 with hr hs
            subst hr
            simp [strictOkRedirs, ihR _ _ _ heqR, ihCL _ _ _ heqL]
      · injection h with h1
        injection h1 with hr hs
        subst hr
        simp [strictOkRedirs]
    · -- command
      intro s r s' h
      rw [command_succ] at h
      split at h
      · simp at h
      · rename_i tl s1 heqT
        split at h
        · simp at h
        · rename_i rds s2 heqL
          injection h with h1
          injection h1 with hr hs
          subst hr
          simp [strictOk, (ihTLst _ _ _ heqT).2, ihCL _ _ _ heqL]
    · -- tableLoop
      intro s lp s' h
      rw [tableLoop_succ] at h
      simp only [] at h
      split at h
      · split at h
        · simp at h
        · rename_i t1 s1 heqT
          split at h
          · split at h
            · simp at h
            · rename_i v1 s3 heqV
              split at h
              · simp at h
              · rename_i ls1 ps1 s4 heqL
                injection h with h1
                injection h1 with hr hs
                subst hr
                have hL := ihTabL _ _ _ heqL
                refine ⟨by simpa using hL.1, ?_⟩
                simp [strictOkPairs, (ihT _ _ _ heqT).2,
                      (ihT _ _ _ heqV).2]
                simpa using hL.2
          · split at h
            · simp at h
            · rename_i ls1 ps1 s2 heqL
              injection h with h1
              injection h1 with hr hs
              subst hr
              have hL := ihTabL _ _ _ heqL
              refine ⟨?_, by simpa using hL.2⟩
              simp [strictOkList, (ihT _ _ _ heqT).2]
              simpa using hL.1
      · split at h
        · injection h with h1
          injection h1 with hr hs
          subst hr
          simp [strictOkList, strictOkPairs]
        · simp at h
    · -- table
      intro s r s' h
      rw [table_succ] at h
      simp only [] at h
      split at h
      · simp at h
      · rename_i ls1 ps1 s1 heqL
        injection h with h1
        injection h1 with hr hs
        subst hr
        have hL := ihTabL _ _ _ heqL
        simp only [strictOk]
        rw [Bool.and_eq_true]
        exact ⟨by simpa using hL.1, by simpa using hL.2⟩
    · -- pipelineLoop
      intro s cs s' h
      rw [pipelineLoop_succ] at h
      simp only [] at h
      split at h
      · simp at h
      · rename_i cmd s1 heqC
        split at h
        · split at h
          · simp at h
          · rename_i cmds s2 heqL
            injection h with h1
            injection h1 with hr hs
            subst hr
            have hL := ihPL _ _ _ heqL
            refine ⟨?_, by simp⟩
            simp [strictOkList, ihC _ _ _ heqC, hL.1]
        · split at h
          · injection h with h1
            injection h1 with hr hs
            subst hr
            refine ⟨?_, by simp⟩
            simp [strictOkList, ihC _ _ _ heqC]
          · simp at h
    · -- pipeline
      intro s r s' h
      rw [pipeline_succ] at h
      simp only [] at h
      split at h
      · rename_i hEof
        injection h with h1
        injection h1 with hr hs
        subst hr
        exact ⟨_, [], rfl, by simp [strictOkList], by simp [hEof]⟩
      · rename_i hNe
        split at h
        · simp at h
        · rename_i cmds s2 heqL
          injection h with h1
          injection h1 with hr hs
          subst hr
          have hL := ihPL _ _ _ heqL
          exact ⟨_, cmds, rfl, hL.1, by simp [hL.2, hNe]⟩

theorem dropSpacesList_append_spaces (sp rest : List Item)
    (h : ∀ t ∈ sp, t.typ = .space) :
    dropSpacesList (sp ++ rest) = dropSpacesList rest := by
  induction sp with
  | nil => rfl
  | cons t ts ih =>
    simp only [List.cons_append, dropSpacesList]
    rw [if_pos (h t (by simp))]
    exact ih (fun x hx => h x (by simp [hx]))

/-- C7: in every tree returned by a successful parse, each term-list
`ListNode` has at least one term child and each term `ListNode` has at
least one factor child; every `ListNode` anywhere below the root is
non-empty (`strictOkList` on the root's children), the root pipeline is
empty exactly when the first non-space token is end-of-input, and empty or
all-whitespace-then-end-of-input input parses without error into a pipeline
with zero commands. -/
theorem c7_list_invariants :
    (∀ (f : Nat) (s : PState) (r : Node) (s' : PState),
      termList f s = .ok (r, s') → ∃ p c cs, r = .list p (c :: cs)) ∧
    (∀ (f : Nat) (s : PState) (r : Node) (s' : PState),
      term f s = .ok (r, s') → ∃ p c cs, r = .list p (c :: cs)) ∧
    (∀ (name text : String) (tab : Bool) (toks : List Item) (fuel : Nat)
       (o : Outcome),
      Parse name text tab toks fuel = .tree o →
      ∃ p cs, o.root = .list p cs ∧ strictOkList cs = true ∧
        (cs = [] ↔ (peekTok (skipSpaces ⟨toks, none⟩)).typ = .eof)) ∧
    (∀ (name text : String) (tab : Bool) (sp : List Item) (p0 f : Nat),
      (∀ t ∈ sp, t.typ = .space) →
      Parse name text tab (sp ++ [(⟨.eof, p0, "", 0⟩ : Item)]) (f + 1) =
        .tree ⟨.list ((sp ++ [(⟨.eof, p0, "", 0⟩ : Item)]).headD eofItem).pos [],
               none⟩) := by
  refine ⟨?_, ?_, ?_, ?_⟩
  · intro f s r s' h
    exact ((parse_nodes_sound f).2.2.2.1 s r s' h).1
  · intro f s r s' h
    exact ((parse_nodes_sound f).2.1 s r s' h).1
  · intro name text tab toks fuel o h
    cases hp : pipeline fuel ⟨toks, none⟩ with
    | ok v =>
      obtain ⟨root, st⟩ := v
      have he : Parse name text tab toks fuel = .tree ⟨root, st.ctx⟩ := by
        simp [Parse, hp]
      rw [he] at h
      injection h with h2
      subst h2
      obtain ⟨p, cs, hr, hok, hiff⟩ :=
        (parse_nodes_sound fuel).2.2.2.2.2.2.2.2.2.2.2 _ _ _ hp
      exact ⟨p, cs, hr, hok, hiff⟩
    | error e =>
      cases e with
      | err v =>
        have he : Parse name text tab toks fuel =
            .fail ⟨name, text, v.pos, v.msg⟩ := by
          simp [Parse, hp]
        rw [he] at h
        cases h
      | fuel =>
        have he : Parse name text tab toks fuel = .fuelOut := by
          simp [Parse, hp]
        rw [he] at h
        cases h
  · intro name text tab sp p0 f h
    have hd : dropSpacesList (sp ++ [(⟨.eof, p0, "", 0⟩ : Item)]) =
        [(⟨.eof, p0, "", 0⟩ : Item)] := by
      rw [dropSpacesList_append_spaces sp _ h]
      rfl
    have hp : pipeline (f + 1) ⟨sp ++ [(⟨.eof, p0, "", 0⟩ : Item)], none⟩ =
        .ok (.list ((sp ++ [(⟨.eof, p0, "", 0⟩ : Item)]).headD eofItem).pos [],
             ⟨[(⟨.eof, p0, "", 0⟩ : Item)], none⟩) := by
      rw [pipeline_succ]
      simp only [skipSpaces, hd]
      rfl
    simp [Parse, hp]

/-- Witness for C7: a single space followed by end-of-input parses without
error into a pipeline with zero commands. -/
theorem c7_list_invariants_witness :
    Parse "s" " " false ([⟨.space, 0, " ", 0⟩] ++ [(⟨.eof, 1, "", 0⟩ : Item)]) 3 =
      .tree ⟨.list (([(⟨.space, 0, " ", 0⟩ : Item)] ++
        [(⟨.eof, 1, "", 0⟩ : Item)]).headD eofItem).pos [], none⟩ := by
  exact c7_list_invariants.2.2.2 "s" " " false [⟨.space, 0, " ", 0⟩] 1 2
    (by decide)

end Elvish
